import Mathlib

/-!
Verification of the resource-exporter core: a shallow embedding of the
discovery-to-declaration pipeline (dedup-checked emission, state
approximation, reference resolution, resource naming, incremental merge
and the orchestrating run loop), with theorems checking the documented
behaviour against the embedded code.

Go strings are embedded as Lean `String` values; indexing and slicing
count characters (which coincides with Go's byte indexing on the ASCII
data handled here).  Go maps become association lists, map assignment
becomes `setAssoc`, and Go channels become explicit queued values in
function results.  Machine integers appearing in the MD5 computation are
`Nat` reduced modulo `2 ^ 32` at every step.
-/

set_option maxRecDepth 1000000

/-! ## Go string helpers -/

def goLen (s : String) : Nat := s.data.length

def goLower (s : String) : String := ⟨s.data.map Char.toLower⟩

def goStartsWith (s p : String) : Bool := p.data.isPrefixOf s.data

def goDropChars (s : String) (n : Nat) : String := ⟨s.data.drop n⟩

def goTakeChars (s : String) (n : Nat) : String := ⟨s.data.take n⟩

def goSlice (s : String) (a b : Nat) : String := ⟨(s.data.take b).drop a⟩

def startsWithDigit (s : String) : Bool :=
  match s.data with
  | c :: _ => c.isDigit
  | [] => false

/-! ## Association lists (embedding of Go maps) -/

def lookupAssoc {α β : Type} [DecidableEq α] : List (α × β) → α → Option β
  | [], _ => none
  | (k, v) :: rest, key => if k = key then some v else lookupAssoc rest key

def setAssoc {α β : Type} [DecidableEq α] : List (α × β) → α → β → List (α × β)
  | [], k, v => [(k, v)]
  | (k', v') :: rest, k, v =>
    if k' = k then (k, v) :: rest else (k', v') :: setAssoc rest k v

def insertSet (l : List String) (s : String) : List String :=
  if s ∈ l then l else l ++ [s]

/-! ## MD5 (used by the content-hash naming fallback) -/

def w32 (n : Nat) : Nat := n % 4294967296

def not32 (a : Nat) : Nat := 4294967295 - a

def rotl32 (x s : Nat) : Nat := w32 (x <<< s) ||| (x >>> (32 - s))

def md5K : Array Nat := #[
  0xd76aa478, 0xe8c7b756, 0x242070db, 0xc1bdceee,
  0xf57c0faf, 0x4787c62a, 0xa8304613, 0xfd469501,
  0x698098d8, 0x8b44f7af, 0xffff5bb1, 0x895cd7be,
  0x6b901122, 0xfd987193, 0xa679438e, 0x49b40821,
  0xf61e2562, 0xc040b340, 0x265e5a51, 0xe9b6c7aa,
  0xd62f105d, 0x02441453, 0xd8a1e681, 0xe7d3fbc8,
  0x21e1cde6, 0xc33707d6, 0xf4d50d87, 0x455a14ed,
  0xa9e3e905, 0xfcefa3f8, 0x676f02d9, 0x8d2a4c8a,
  0xfffa3942, 0x8771f681, 0x6d9d6122, 0xfde5380c,
  0xa4beea44, 0x4bdecfa9, 0xf6bb4b60, 0xbebfbc70,
  0x289b7ec6, 0xeaa127fa, 0xd4ef3085, 0x04881d05,
  0xd9d4d039, 0xe6db99e5, 0x1fa27cf8, 0xc4ac5665,
  0xf4292244, 0x432aff97, 0xab9423a7, 0xfc93a039,
  0x655b59c3, 0x8f0ccc92, 0xffeff47d, 0x85845dd1,
  0x6fa87e4f, 0xfe2ce6e0, 0xa3014314, 0x4e0811a1,
  0xf7537e82, 0xbd3af235, 0x2ad7d2bb, 0xeb86d391]

def md5S : Array Nat := #[
  7, 12, 17, 22, 7, 12, 17, 22, 7, 12, 17, 22, 7, 12, 17, 22,
  5, 9, 14, 20, 5, 9, 14, 20, 5, 9, 14, 20, 5, 9, 14, 20,
  4, 11, 16, 23, 4, 11, 16, 23, 4, 11, 16, 23, 4, 11, 16, 23,
  6, 10, 15, 21, 6, 10, 15, 21, 6, 10, 15, 21, 6, 10, 15, 21]

structure MD5St where
  a : Nat
  b : Nat
  c : Nat
  d : Nat

def md5Step (M : List Nat) (st : MD5St) (i : Nat) : MD5St :=
  let fg : Nat × Nat :=
    if i < 16 then ((st.b &&& st.c) ||| (not32 st.b &&& st.d), i)
    else if i < 32 then ((st.d &&& st.b) ||| (not32 st.d &&& st.c), (5 * i + 1) % 16)
    else if i < 48 then (st.b ^^^ st.c ^^^ st.d, (3 * i + 5) % 16)
    else (st.c ^^^ (st.b ||| not32 st.d), (7 * i) % 16)
  let f := w32 (fg.1 + st.a + md5K.getD i 0 + M.getD fg.2 0)
  { a := st.d, d := st.c, c := st.b, b := w32 (st.b + rotl32 f (md5S.getD i 0)) }

def md5Chunk (st : MD5St) (M : List Nat) : MD5St :=
  let r := (List.range 64).foldl (md5Step M) st
  { a := w32 (st.a + r.a), b := w32 (st.b + r.b),
    c := w32 (st.c + r.c), d := w32 (st.d + r.d) }

def bytesToWordsLE : List Nat → List Nat
  | b0 :: b1 :: b2 :: b3 :: rest =>
    (b0 + 256 * b1 + 65536 * b2 + 16777216 * b3) :: bytesToWordsLE rest
  | _ => []

def chunks64Go : Nat → List Nat → List (List Nat)
  | 0, _ => []
  | _, [] => []
  | fuel + 1, b :: rest => (b :: rest).take 64 :: chunks64Go fuel ((b :: rest).drop 64)

def chunks64 (l : List Nat) : List (List Nat) := chunks64Go l.length l

def natToBytesLE (n v : Nat) : List Nat :=
  match n with
  | 0 => []
  | n + 1 => v % 256 :: natToBytesLE n (v / 256)

def md5Pad (msg : List Nat) : List Nat :=
  msg ++ [128] ++ List.replicate ((119 - msg.length % 64) % 64) 0
      ++ natToBytesLE 8 (msg.length * 8)

def md5Bytes (msg : List Nat) : List Nat :=
  let st := (chunks64 (md5Pad msg)).foldl
    (fun s ch => md5Chunk s (bytesToWordsLE ch))
    ⟨0x67452301, 0xefcdab89, 0x98badcfe, 0x10325476⟩
  natToBytesLE 4 st.a ++ natToBytesLE 4 st.b ++ natToBytesLE 4 st.c ++ natToBytesLE 4 st.d

def hexDigit (n : Nat) : Char := if n < 10 then Char.ofNat (48 + n) else Char.ofNat (87 + n)

def byteToHex (b : Nat) : List Char := [hexDigit (b / 16), hexDigit (b % 16)]

def strBytes (s : String) : List Nat := s.data.map Char.toNat

def md5Hex (msg : List Nat) : String := ⟨((md5Bytes msg).map byteToHex).flatten⟩

/-! ## Data model -/

/-- Resource: identity tuple kind/name/id/mode plus the optional
(attribute, value) match pair and the live data handle; `data = none`
models a resource whose `Data.State()` is nil, `data = some attrs` the
materialized attribute map. -/
structure Resource where
  resourceType : String
  id : String
  attr : String
  value : String
  name : String
  mode : String
  data : Option (List (String × String))
deriving DecidableEq

/-- Modelled from the spec: the resource's "(attribute, value) pair used
for reference matching" with the synthetic `id` attribute as default
(`resource.MatchPair` lives outside the provided sources). -/
def Resource.matchPair (r : Resource) : String × String :=
  if r.id = "" then (r.attr, r.value) else ("id", r.id)

/-- Modelled from the spec: the identity string used by the Identity
Tracker, "derived deterministically from kind, id/name, mode"
(`resource.String` lives outside the provided sources). -/
def Resource.str (r : Resource) : String :=
  r.resourceType ++ "[" ++ r.id ++ "/" ++ r.name ++ "] (" ++ r.mode ++ ")"

structure InstanceApproximation where
  attributes : List (String × String)
deriving DecidableEq

structure ResourceApproximation where
  mode : String
  moduleName : String
  resourceType : String
  name : String
  instances : List InstanceApproximation
deriving DecidableEq

/-- Modelled from the spec: the State Approximation keeps an append-only
resource list (for linear scans) and a direct hash index keyed by
(kind, attribute, value) (for O(1) lookups); `stateApproximation` lives
outside the provided sources. -/
structure StateApproximation where
  resources : List ResourceApproximation
  directIndex : List ((String × String × String) × ResourceApproximation)
deriving DecidableEq

/-- Modelled from the spec: `get(kind, attribute, value)` consults only
the direct index. -/
def stateGet (sa : StateApproximation) (typ attr value : String) :
    Option ResourceApproximation :=
  lookupAssoc sa.directIndex (typ, attr, value)

/-- Modelled from the spec: `resourcesOf(kind)` yields the instances of
one kind for the linear-scan fallback. -/
def stateResources (sa : StateApproximation) (typ : String) :
    List ResourceApproximation :=
  sa.resources.filter (fun ra => ra.resourceType == typ)

/-- Modelled from the spec: `append` adds the snapshot record and indexes
every instance attribute under (kind, attribute, value). -/
def stateAppend (sa : StateApproximation) (ra : ResourceApproximation) :
    StateApproximation :=
  { resources := sa.resources ++ [ra],
    directIndex := sa.directIndex ++
      (ra.instances.map (fun i =>
        i.attributes.map (fun kv => ((ra.resourceType, kv.1, kv.2), ra)))).flatten }

/-- Modelled from the spec: presence check by the resource's match pair. -/
def stateHas (sa : StateApproximation) (r : Resource) : Bool :=
  (stateGet sa r.resourceType r.matchPair.1 r.matchPair.2).isSome

inductive MatchType
  | dflt
  | exact
  | ci
  | pfx
  | rgx
deriving DecidableEq

/-- Compiled pattern, embedded as its match function: `findIdx v` returns
the index pairs of `FindStringSubmatchIndex` (whole match first, then one
pair per capture group), `none` when the pattern does not match. -/
structure GoRegexp where
  findIdx : String → Option (List (Nat × Nat))

/-- Result of Go's `FindStringSubmatch`: the matched substrings, empty
when there is no match. -/
def GoRegexp.findSubmatch (re : GoRegexp) (v : String) : List String :=
  match re.findIdx v with
  | none => []
  | some pairs => pairs.map (fun p => goSlice v p.1 p.2)

/-- Reference declaration: target kind/attribute, match policy, optional
compiled pattern, field path and the file/variable flags. -/
structure Reference where
  resourceType : String
  path : String
  matchAttr : String
  matchType : MatchType
  pattern : Option GoRegexp
  isFile : Bool
  isVariable : Bool

/-- Modelled from the spec: the target attribute defaults to the
synthetic `id` attribute when the declaration names none. -/
def Reference.matchAttribute (ref : Reference) : String :=
  if ref.matchAttr = "" then "id" else ref.matchAttr

/-- Importable (resource-kind collaborator): service grouping, level
flags, the optional name policy and the declared references. -/
structure Importable where
  service : String
  accountLevel : Bool
  nameFn : Option (Option (List (String × String)) → String)
  depends : List Reference

/-- The mutable part of `importContext` touched by the embedded
operations, plus the immutable configuration they read. -/
structure ImportCtx where
  moduleName : String
  importables : List (String × Importable)
  resources : List String
  prfx : String
  vars : List (String × String)
  state : StateApproximation
  scope : List Resource
  services : List String
  importing : List (String × Bool)
  testEmits : Option (List String)
  accountLevel : Bool
  channels : List String
  incremental : Bool

def lookupImportable (ic : ImportCtx) (rt : String) : Option Importable :=
  lookupAssoc ic.importables rt

/-! ## Resource naming (`importContext.ResourceName` and `nameFixes`) -/

def isHexLower (c : Char) : Bool := c.isDigit || ('a' ≤ c && c ≤ 'f')

def isSepChar (c : Char) : Bool := c = '_' || c = '-'

def takeHexRun : Nat → List Char → Option (List Char)
  | 0, l => some l
  | _ + 1, [] => none
  | n + 1, c :: rest => if isHexLower c then takeHexRun n rest else none

def takeSepChar : List Char → Option (List Char)
  | [] => none
  | c :: rest => if isSepChar c then some rest else none

/-- Matcher for the first `nameFixes` pattern (8-4-4-4-12 lowercase hex
digit groups separated and terminated by `_` or `-`); returns the suffix
after a match at the head of the input. -/
def matchGuid (l : List Char) : Option (List Char) :=
  (takeHexRun 8 l).bind fun l1 => (takeSepChar l1).bind fun l2 =>
  (takeHexRun 4 l2).bind fun l3 => (takeSepChar l3).bind fun l4 =>
  (takeHexRun 4 l4).bind fun l5 => (takeSepChar l5).bind fun l6 =>
  (takeHexRun 4 l6).bind fun l7 => (takeSepChar l7).bind fun l8 =>
  (takeHexRun 12 l8).bind fun l9 => takeSepChar l9

def fix1Go : Nat → List Char → List Char
  | 0, l => l
  | _, [] => []
  | fuel + 1, c :: rest =>
    match matchGuid (c :: rest) with
    | some rem => fix1Go fuel rem
    | none => c :: fix1Go fuel rest

/-- First name fix: delete GUID-like prefixes (leftmost, non-overlapping),
replacement of the Go regexp by the empty string. -/
def nameFix1 (l : List Char) : List Char := fix1Go l.length l

def isSpaceGo (c : Char) : Bool :=
  c = '\t' || c = '\n' || c = '\x0c' || c = '\r' || c = ' '

/-- Second name fix: each character of the class dash/whitespace/dot/pipe
becomes an underscore. -/
def nameFix2 (l : List Char) : List Char :=
  l.map (fun c => if c = '-' || isSpaceGo c || c = '.' || c = '|' then '_' else c)

def isWordChar (c : Char) : Bool := c.isAlphanum || c = '_'

def fix3Go : Bool → List Char → List Char
  | _, [] => []
  | inRun, c :: rest =>
    if isWordChar c then c :: fix3Go false rest
    else if inRun then fix3Go true rest
    else '_' :: fix3Go true rest

/-- Third name fix: every maximal run of non-word characters becomes one
underscore. -/
def nameFix3 (l : List Char) : List Char := fix3Go false l

def fix4Go : Bool → List Char → List Char
  | _, [] => []
  | inRun, c :: rest =>
    if c = '_' then (if inRun then fix4Go true rest else '_' :: fix4Go true rest)
    else c :: fix4Go false rest

/-- Fourth name fix: runs of two or more underscores collapse to one. -/
def nameFix4 (l : List Char) : List Char := fix4Go false l

/-- `regexFix` with the `nameFixes` list: the four fixes in order. -/
def applyNameFixes (s : String) : String :=
  ⟨nameFix4 (nameFix3 (nameFix2 (nameFix1 s.data)))⟩

/-- The raw name before normalization: the resource name, else the name
policy's answer, else the id. -/
def rawNameOf (ic : ImportCtx) (r : Resource) : String :=
  let n1 :=
    if r.name = "" then
      match lookupImportable ic r.resourceType with
      | some ir =>
        match ir.nameFn with
        | some f => f r.data
        | none => r.name
      | none => r.name
    else r.name
  if n1 = "" then r.id else n1

/-- The prefixed, lower-cased, regex-normalized name. -/
def normalizedNameOf (ic : ImportCtx) (r : Resource) : String :=
  applyNameFixes (goLower (ic.prfx ++ rawNameOf ic r))

/-- `importContext.ResourceName`: normalized name, or the 12-character
`r`-prefixed MD5 fallback when the normalized name is empty or starts
with a digit (hashing the original-case name, or the id when empty). -/
def resourceName (ic : ImportCtx) (r : Resource) : String :=
  let n5 := normalizedNameOf ic r
  if startsWithDigit n5 || n5 = "" then
    let oc := if n5 = "" then r.id else ic.prfx ++ rawNameOf ic r
    goTakeChars ("r" ++ md5Hex (strBytes oc)) 12
  else n5

/-! ## Emission entry points (`Emit`, `Add`, `Has`, `HasInState`) -/

/-- `importContext.isImporting`: the identity tracker entry, `none` when
the identity is unknown, `some b` the being-emitted (`false`) or
fully-emitted (`true`) flag. -/
def isImporting (ic : ImportCtx) (s : String) : Option Bool :=
  lookupAssoc ic.importing s

/-- `importContext.HasInState`: true when the identity tracker records the
resource (with any flag unless `onlyAdded` requires the fully-emitted
one), else when the State Approximation has it. -/
def hasInState (ic : ImportCtx) (r : Resource) (onlyAdded : Bool) : Bool :=
  match isImporting ic r.str with
  | some v => if v || !onlyAdded then true else stateHas ic.state r
  | none => stateHas ic.state r

/-- `importContext.Has`. -/
def has (ic : ImportCtx) (r : Resource) : Bool := hasInState ic r false

/-- `importContext.setImportingState`. -/
def setImportingState (ic : ImportCtx) (s : String) (st : Bool) : ImportCtx :=
  { ic with importing := setAssoc ic.importing s st }

def isServiceEnabled (ic : ImportCtx) (service : String) : Bool :=
  service ∈ ic.services

/-- `importContext.Add`: skip when already fully added, mark as added,
bail out on a nil data state, otherwise append the snapshot (with the
synthetic `id` attribute and defaulted mode) to the State Approximation
and the resource to the Scope. -/
def add (ic : ImportCtx) (r : Resource) : ImportCtx :=
  if hasInState ic r true then ic
  else
    let ic1 := setImportingState ic r.str true
    match r.data with
    | none => ic1
    | some attrs =>
      let rr := if r.mode = "" then { r with mode := "managed" } else r
      let inst : InstanceApproximation := ⟨setAssoc attrs "id" rr.id⟩
      { ic1 with
        state := stateAppend ic1.state
          ⟨rr.mode, ic1.moduleName, rr.resourceType, rr.name, [inst]⟩,
        scope := ic1.scope ++ [rr] }

/-- `importContext.Emit`: the dedup-checked entry point.  The second
component is the channel hand-off (channel key and resource), `none` when
nothing is enqueued. -/
def emit (ic : ImportCtx) (r : Resource) : ImportCtx × Option (String × Resource) :=
  if r.matchPair.2 = "" then (ic, none)
  else
    match lookupImportable ic r.resourceType with
    | none => (ic, none)
    | some ir =>
      if ¬ isServiceEnabled ic ir.service then (ic, none)
      else if has ic r then (ic, none)
      else
        match ic.testEmits with
        | some te => ({ ic with testEmits := some (insertSet te r.str) }, none)
        | none =>
          let ic1 := setImportingState ic r.str false
          if r.resourceType ∉ ic1.resources then (ic1, none)
          else if ic1.accountLevel ∧ ¬ ir.accountLevel then (ic1, none)
          else if r.resourceType ∈ ic1.channels then (ic1, some (r.resourceType, r))
          else (ic1, some ("default", r))

/-! ## Reference resolution (`Find`, `genTraversalTokens`,
`getTraversalTokens`, `reference`, `variable`) -/

/-- `genTraversalTokens`: the traversal to the found resource's picked
attribute, with a leading `data` root for data-mode resources. -/
def genTraversalTokens (sr : ResourceApproximation) (pick : String) : List String :=
  if sr.mode = "data" then ["data", sr.resourceType, sr.name, pick]
  else [sr.resourceType, sr.name, pick]

/-- One instance row of the linear-scan loop in `Find`: skip instances
without the attribute, compare case-insensitively or by prefix. -/
def scanInstances (mt : MatchType) (rValue matchValue attr : String) :
    List InstanceApproximation → Option String
  | [] => none
  | i :: rest =>
    match lookupAssoc i.attributes attr with
    | none => scanInstances mt rValue matchValue attr rest
    | some strValue =>
      let matched : Bool :=
        match mt with
        | .ci => goLower strValue == matchValue
        | .pfx => goStartsWith rValue strValue
        | _ => false
      if matched then some strValue
      else scanInstances mt rValue matchValue attr rest

/-- The outer linear-scan loop of `Find` over one kind's approximations. -/
def scanResources (mt : MatchType) (rValue matchValue attr pick : String) :
    List ResourceApproximation → String × Option (List String)
  | [] => ("", none)
  | sr :: rest =>
    match scanInstances mt rValue matchValue attr sr.instances with
    | some sv => (sv, some (genTraversalTokens sr pick))
    | none => scanResources mt rValue matchValue attr pick rest

/-- `importContext.Find`: resolve a queried (kind, attribute, value)
against the State Approximation under the reference's match policy,
returning the matched portion and the traversal (or `("", none)`). -/
def find (ic : ImportCtx) (r : Resource) (pick : String) (ref : Reference) :
    String × Option (List String) :=
  let mvOpt : Option String :=
    match ref.matchType with
    | .rgx =>
      match ref.pattern with
      | none => none
      | some re =>
        match re.findSubmatch r.value with
        | _ :: mv :: _ => some mv
        | _ => none
    | .ci => some (goLower r.value)
    | .exact => some r.value
    | .dflt => some r.value
    | .pfx => some ""
  match mvOpt with
  | none => ("", none)
  | some matchValue =>
    let direct : Bool :=
      match ref.matchType with
      | .exact => true
      | .dflt => true
      | .rgx => true
      | .ci => true
      | .pfx => false
    if direct then
      match stateGet ic.state r.resourceType r.attr matchValue with
      | some sr => (matchValue, some (genTraversalTokens sr pick))
      | none =>
        if ref.matchType ≠ MatchType.ci then ("", none)
        else scanResources ref.matchType r.value matchValue r.attr pick
          (stateResources ic.state r.resourceType)
    else
      scanResources ref.matchType r.value matchValue r.attr pick
        (stateResources ic.state r.resourceType)

inductive TokType
  | oQuote
  | cQuote
  | quotedLit
deriving DecidableEq

/-- One `hclwrite` token of the generated expression: a raw token with its
byte content, an interpolated traversal, or a literal value rendering. -/
inductive HTok
  | raw (t : TokType) (bytes : String)
  | trav (t : List String)
  | value (s : String)
deriving DecidableEq

def escQuoteGo : List Char → List Char
  | [] => []
  | c :: rest =>
    if c = '\\' then '\\' :: '\\' :: escQuoteGo rest
    else if c = '"' then '\\' :: '"' :: escQuoteGo rest
    else c :: escQuoteGo rest

/-- `maybeAddQuoteCharacter`: escape backslashes, then double quotes. -/
def maybeAddQuoteCharacter (s : String) : String := ⟨escQuoteGo s.data⟩

/-- `importContext.getTraversalTokens`: resolve the value through `find`
and compose the output expression for the match policy — a bare
traversal, or a hybrid quoted expression for prefix and regexp policies. -/
def getTraversalTokens (ic : ImportCtx) (ref : Reference) (value : String) :
    Option (List HTok) :=
  let attr := ref.matchAttribute
  let fr := find ic ⟨ref.resourceType, "", attr, value, "", "", none⟩ attr ref
  match fr.2 with
  | none => none
  | some traversal =>
    match ref.matchType with
    | .exact => some [HTok.trav traversal]
    | .dflt => some [HTok.trav traversal]
    | .ci => some [HTok.trav traversal]
    | .pfx =>
      let rest := goDropChars value (goLen fr.1)
      some ([HTok.raw TokType.oQuote "\"$\x7b", HTok.trav traversal,
             HTok.raw TokType.cQuote "\x7d",
             HTok.raw TokType.quotedLit (maybeAddQuoteCharacter rest),
             HTok.raw TokType.cQuote "\""])
    | .rgx =>
      match ref.pattern with
      | none => none
      | some re =>
        match re.findIdx value with
        | some [_, g] =>
          some ([HTok.raw TokType.oQuote "\"",
                 HTok.raw TokType.quotedLit (maybeAddQuoteCharacter (goTakeChars value g.1)),
                 HTok.raw TokType.oQuote "$\x7b", HTok.trav traversal,
                 HTok.raw TokType.cQuote "\x7d",
                 HTok.raw TokType.quotedLit (maybeAddQuoteCharacter (goDropChars value g.2)),
                 HTok.raw TokType.cQuote "\""])
        | _ => none

/-- Removal of list-index segments from a field path, the `dependsRe`
replacement: every dot followed by digits is deleted. -/
def stripIdxGo : Nat → List Char → List Char
  | 0, l => l
  | _, [] => []
  | fuel + 1, c :: rest =>
    if c = '.' then
      match rest with
      | d :: rest2 =>
        if d.isDigit then stripIdxGo fuel (rest2.dropWhile Char.isDigit)
        else c :: stripIdxGo fuel rest
      | [] => [c]
    else c :: stripIdxGo fuel rest

def stripIndexSegments (s : String) : String := ⟨stripIdxGo s.data.length s.data⟩

def joinDot (path : List String) : String := String.intercalate "." path

/-- The normalized path a `Depends` declaration is matched against. -/
def dependsPath (path : List String) : String := stripIndexSegments (joinDot path)

/-- `importContext.variable`: register the named variable and return the
`var.<name>` traversal. -/
def variableTokens (ic : ImportCtx) (name desc : String) : ImportCtx × List HTok :=
  ({ ic with vars := setAssoc ic.vars name desc }, [HTok.trav ["var", name]])

/-- The relative-path literal returned for file-backed fields. -/
def fileTokens (value : String) : List HTok :=
  [HTok.raw TokType.oQuote "\"",
   HTok.raw TokType.quotedLit ("$\x7bpath.module\x7d/" ++ value),
   HTok.raw TokType.cQuote "\""]

/-- The `Depends` loop of `importContext.reference`: skip declarations for
other paths; a file-backed declaration returns the relative-path literal,
a variable declaration registers and returns a variable reference, and
otherwise a resolved traversal wins, falling through to the literal value. -/
def referenceLoop (ic : ImportCtx) (matchPath : String) (path : List String)
    (value : String) (ctyValue : String) :
    List Reference → ImportCtx × List HTok
  | [] => (ic, [HTok.value ctyValue])
  | d :: rest =>
    if d.path ≠ matchPath then referenceLoop ic matchPath path value ctyValue rest
    else if d.isFile then (ic, fileTokens value)
    else if d.isVariable then
      variableTokens ic ((path.headD "") ++ "_" ++ value) ""
    else
      match getTraversalTokens ic d value with
      | some toks => (ic, toks)
      | none => referenceLoop ic matchPath path value ctyValue rest

/-- `importContext.reference`. -/
def reference (ic : ImportCtx) (i : Importable) (path : List String)
    (value : String) (ctyValue : String) : ImportCtx × List HTok :=
  referenceLoop ic (dependsPath path) path value ctyValue i.depends

/-! ## Generic projection field order (`dataToHcl`) -/

inductive SchemaKind
  | str
  | bool
  | int
  | float
  | map
  | set
  | list
deriving DecidableEq

/-- The per-field schema metadata consulted by the generic projection. -/
structure SchemaS where
  typ : SchemaKind
  required : Bool
deriving DecidableEq

/-- The field enumeration of `dataToHcl`: the schema's field tuples sorted
with the comparator `ss[i].Field > ss[j].Field`.  `sort.Slice` leaves the
algorithm unspecified and guarantees only a result sorted under the
comparator, which insertion sort with the same comparator realizes. -/
def fieldOrder (sch : List (String × SchemaS)) : List (String × SchemaS) :=
  List.insertionSort (fun a b => b.1 ≤ a.1) sch

/-- The sequence of field names `dataToHcl` visits. -/
def dataToHclFieldNames (sch : List (String × SchemaS)) : List String :=
  (fieldOrder sch).map Prod.fst

/-- The sequence of fields actually emitted into the body, i.e. the
visited sequence with the omitted fields dropped (the omission decision
for a given path, schema and data is the boolean `omitFn`). -/
def dataToHclEmittedFields (sch : List (String × SchemaS)) (omitFn : String → Bool) :
    List String :=
  (dataToHclFieldNames sch).filter (fun a => ! omitFn a)

/-! ## Incremental merge (`handleResourceWrite`) -/

/-- One value received on a writer channel. -/
structure RWData where
  blockName : String
  resourceBody : String
  importCommand : String
deriving DecidableEq

/-- One configuration block of an output file, identified by
`generateBlockFullName` (type and labels joined by underscores). -/
structure Block where
  name : String
  body : String
deriving DecidableEq

/-- `importContext.handleResourceWrite` for one output file: stream the
newly generated blocks (recording their identities and forwarding
their import commands), then in incremental mode append every prior block whose
identity was not regenerated; delete the file (`none`) when it would hold
zero blocks. -/
def handleResourceWrite (incremental : Bool) (existing : List Block)
    (ch : List RWData) : Option (List Block) × List String :=
  let newBlocks := ch.map (fun f => Block.mk f.blockName f.resourceBody)
  let newNames := ch.map (fun f => f.blockName)
  let kept :=
    if incremental then existing.filter (fun blk => decide (blk.name ∉ newNames))
    else []
  let numResources := newNames.dedup.length + kept.length
  (if numResources = 0 then none else some (newBlocks ++ kept),
   (ch.filter (fun f => f.importCommand ≠ "")).map (fun f => f.importCommand))

/-! ## The orchestrating run (`importContext.Run`) -/

def goUpper (s : String) : String := ⟨s.data.map Char.toUpper⟩

/-- The configuration and environment of one `Run` invocation; operating
system and platform effects are embedded as the observations the code
branches on (`dirOk`, `clientOk`, ...), and `scopeLenAfterListing` is the
Scope length once every listing collaborator has finished. -/
structure RunCfg where
  services : List String
  incremental : Bool
  updatedSinceStr : String
  lastRunStr : String
  updatedSinceParses : Bool
  notebooksFormat : String
  formatSupported : Bool
  dirOk : Bool
  clientOk : Bool
  generateDeclaration : Bool
  scopeLenAfterListing : Nat
  serviceFiles : List String
  varsNonEmpty : Bool
  noFormat : Bool
  fmtOk : Bool

/-- `importContext.Run`: the phase sequence with its fatal setup checks,
returning the configuration/script files written in order, and the error
(if any).  The "no resources to import" check sits after listing and
before any file is opened for writing. -/
def run (cfg : RunCfg) : List String × Option String :=
  if cfg.services.length = 0 then ([], some "no services to import")
  else
    let upd :=
      if cfg.incremental && cfg.updatedSinceStr == "" then cfg.lastRunStr
      else cfg.updatedSinceStr
    if cfg.incremental && upd == "" then
      ([], some "-updated-since is required")
    else if cfg.incremental && !cfg.updatedSinceParses then
      ([], some "can't parse value")
    else if !cfg.formatSupported && goUpper cfg.notebooksFormat ≠ "SOURCE" then
      ([], some "unsupported notebook format")
    else if !cfg.dirOk then ([], some "can't create directory")
    else if !cfg.clientOk then ([], some "client setup failed")
    else if cfg.scopeLenAfterListing = 0 then ([], some "no resources to import")
    else
      let files := ["import.sh"]
        ++ (if cfg.generateDeclaration then ["databricks.tf"] else [])
        ++ cfg.serviceFiles
        ++ (if cfg.varsNonEmpty then ["vars.tf"] else [])
        ++ ["exporter-run-stats.json", "ignored_resources.txt"]
      if !cfg.noFormat && !cfg.fmtOk then (files, some "problems when formatting")
      else (files, none)

/-! ## Helper lemmas -/

theorem lookupAssoc_setAssoc_self {α β : Type} [DecidableEq α]
    (l : List (α × β)) (k : α) (v : β) :
    lookupAssoc (setAssoc l k v) k = some v := by
  induction l with
  | nil => simp [setAssoc, lookupAssoc]
  | cons p rest ih =>
    by_cases hk : p.1 = k
    · simp [setAssoc, hk, lookupAssoc]
    · simp [setAssoc, hk, lookupAssoc, ih]

theorem insertSet_mem_self (l : List String) (s : String) : s ∈ insertSet l s := by
  unfold insertSet
  split
  · assumption
  · simp

theorem insertSet_of_mem {l : List String} {s : String} (h : s ∈ l) :
    insertSet l s = l := by
  simp [insertSet, h]

/-! ## Claims about Emit and Add -/

/-- C9: a resource whose match-pair value is empty is dropped at the top
of `Emit`: the context (importing map, State Approximation, Scope) is
unchanged and nothing is enqueued. -/
theorem emit_empty_identifier_noop (ic : ImportCtx) (r : Resource)
    (h : r.matchPair.2 = "") : emit ic r = (ic, none) := by
  simp [emit, h]

theorem emit_empty_identifier_noop_witness :
    (Resource.matchPair ⟨"databricks_group", "", "", "", "x", "", none⟩).2 = "" ∧
    emit ⟨"", [], [], "", [], ⟨[], []⟩, [], [], [], none, false, [], false⟩
      ⟨"databricks_group", "", "", "", "x", "", none⟩ =
      (⟨"", [], [], "", [], ⟨[], []⟩, [], [], [], none, false, [], false⟩, none) :=
  ⟨rfl, emit_empty_identifier_noop _ _ rfl⟩
theorem has_of_recorded_or_present (ic : ImportCtx) (r : Resource)
    (h : isImporting ic r.str ≠ none ∨ stateHas ic.state r = true) :
    has ic r = true := by
  unfold has hasInState
  cases him : isImporting ic r.str with
  | some v => simp
  | none =>
    rcases h with h | h
    · exact absurd him h
    · simp [h]

/-- C1: `Emit` is deduplicating.  First, for a resource whose identity is
already recorded in the importing map (with either flag) or already
present in the State Approximation, `Emit` changes no state and enqueues
nothing.  Second, immediately re-emitting any resource is a no-op that
enqueues nothing, so one identity yields at most one hand-off (hence at
most one Output Block and State Approximation entry) across two calls. -/
theorem emit_dedup (ic : ImportCtx) (r : Resource) :
    ((isImporting ic r.str ≠ none ∨ stateHas ic.state r = true) →
      emit ic r = (ic, none))
    ∧ emit (emit ic r).1 r = ((emit ic r).1, none) := by
  constructor
  · intro h
    have hhas : has ic r = true := has_of_recorded_or_present ic r h
    simp only [emit]
    split
    · rfl
    · cases him : lookupImportable ic r.resourceType with
      | none => rfl
      | some ir => simp [him, hhas]
  · by_cases hv : r.matchPair.2 = ""
    · simp [emit, hv]
    · cases him : lookupImportable ic r.resourceType with
      | none => simp [emit, hv, him]
      | some ir =>
        by_cases hsvc : isServiceEnabled ic ir.service
        · by_cases hhas : has ic r
          · simp [emit, hv, him, hsvc, hhas]
          · cases hte : ic.testEmits with
            | some te =>
              have h1 : emit ic r =
                  ({ ic with testEmits := some (insertSet te r.str) }, none) := by
                simp [emit, hv, him, hsvc, hhas, hte]
              have him2 : lookupImportable
                  { ic with testEmits := some (insertSet te r.str) } r.resourceType =
                  some ir := him
              have hhas2 : has { ic with testEmits := some (insertSet te r.str) } r = false := by
                simpa [has, hasInState, isImporting, stateHas] using hhas
              rw [h1]
              simp only [emit, hv, him2, hhas2, if_neg]
              simp [hsvc, isServiceEnabled, insertSet_of_mem (insertSet_mem_self te r.str)]
            | none =>
              have hfst : (emit ic r).1 = setImportingState ic r.str false := by
                simp [emit, hv, him, hte, hsvc, hhas]
                split
                · split
                  · rfl
                  · split <;> rfl
                · rfl
              rw [hfst]
              have hhas1 : has (setImportingState ic r.str false) r = true := by
                simp [has, hasInState, isImporting, setImportingState,
                  lookupAssoc_setAssoc_self]
              have him1 : lookupImportable (setImportingState ic r.str false) r.resourceType =
                  some ir := him
              simp [emit, hv, him1, hhas1]
        · simp [emit, hv, him, hsvc]

def groupImportable : Importable := ⟨"groups", true, none, []⟩

def baseCtx : ImportCtx :=
  ⟨"", [("databricks_group", groupImportable)], ["databricks_group"], "",
   [], ⟨[], []⟩, [], ["groups"], [], none, false, [], false⟩

def resG : Resource :=
  ⟨"databricks_group", "123", "", "", "admins", "", some [("display_name", "admins")]⟩

theorem emit_dedup_witness :
    (isImporting { baseCtx with importing := [(resG.str, false)] } resG.str ≠ none ∨
      stateHas { baseCtx with importing := [(resG.str, false)] }.state resG = true) ∧
    emit { baseCtx with importing := [(resG.str, false)] } resG =
      ({ baseCtx with importing := [(resG.str, false)] }, none) :=
  ⟨Or.inl (by decide), (emit_dedup _ _).1 (Or.inl (by decide))⟩

/-- C10: adding a resource whose live data handle has a nil state leaves
the State Approximation and the Scope untouched, yet (when the guard did
not already fire) records the identity as fully added, so every later
`Add` and fully-added check treats the resource as already emitted. -/
theorem add_nil_state (ic : ImportCtx) (r : Resource) (h : r.data = none) :
    (add ic r).state = ic.state ∧ (add ic r).scope = ic.scope ∧
    hasInState (add ic r) r true = true ∧
    add (add ic r) r = add ic r ∧
    (hasInState ic r true = false →
      (add ic r).importing = setAssoc ic.importing r.str true) := by
  by_cases hh : hasInState ic r true
  · have h1 : add ic r = ic := by simp [add, hh]
    refine ⟨by rw [h1], by rw [h1], by rw [h1]; exact hh, by rw [h1, h1],
      fun hcon => absurd hh (by simp [hcon])⟩
  · have h1 : add ic r = setImportingState ic r.str true := by
      simp [add, hh, h]
    have h2 : hasInState (setImportingState ic r.str true) r true = true := by
      simp [hasInState, isImporting, setImportingState, lookupAssoc_setAssoc_self]
    refine ⟨by rw [h1]; rfl, by rw [h1]; rfl, by rw [h1]; exact h2, ?_, fun _ => by rw [h1]; rfl⟩
    rw [h1]
    unfold add
    rw [if_pos h2]

theorem add_nil_state_witness :
    (⟨"databricks_group", "42", "", "", "g", "managed", none⟩ : Resource).data = none ∧
    ((add baseCtx ⟨"databricks_group", "42", "", "", "g", "managed", none⟩).state =
        baseCtx.state ∧
      (add baseCtx ⟨"databricks_group", "42", "", "", "g", "managed", none⟩).scope =
        baseCtx.scope ∧
      hasInState (add baseCtx ⟨"databricks_group", "42", "", "", "g", "managed", none⟩)
        ⟨"databricks_group", "42", "", "", "g", "managed", none⟩ true = true ∧
      add (add baseCtx ⟨"databricks_group", "42", "", "", "g", "managed", none⟩)
          ⟨"databricks_group", "42", "", "", "g", "managed", none⟩ =
        add baseCtx ⟨"databricks_group", "42", "", "", "g", "managed", none⟩ ∧
      (hasInState baseCtx ⟨"databricks_group", "42", "", "", "g", "managed", none⟩ true =
          false →
        (add baseCtx ⟨"databricks_group", "42", "", "", "g", "managed", none⟩).importing =
          setAssoc baseCtx.importing
            (Resource.str ⟨"databricks_group", "42", "", "", "g", "managed", none⟩) true)) :=
  ⟨rfl, add_nil_state baseCtx ⟨"databricks_group", "42", "", "", "g", "managed", none⟩ rfl⟩

/-! ## Claims about resource naming -/

theorem natToBytesLE_length (n : Nat) : ∀ v, (natToBytesLE n v).length = n := by
  induction n with
  | zero => intro v; rfl
  | succ n ih => intro v; simp [natToBytesLE, ih]

theorem md5Bytes_length (msg : List Nat) : (md5Bytes msg).length = 16 := by
  unfold md5Bytes
  simp [natToBytesLE_length]

theorem byteToHex_flatten_length (bs : List Nat) :
    ((bs.map byteToHex).flatten).length = 2 * bs.length := by
  induction bs with
  | nil => rfl
  | cons b rest ih =>
    simp [byteToHex, ih]
    omega

theorem md5Hex_goLen (msg : List Nat) : goLen (md5Hex msg) = 32 := by
  unfold md5Hex goLen
  show ((md5Bytes msg).map byteToHex).flatten.length = 32
  rw [byteToHex_flatten_length, md5Bytes_length]

/-- C4: resource naming.  First, with an empty prefix the raw name
"General Policy - All Users" normalizes to "general_policy_all_users".
Second, whenever the normalized name is empty or begins with a digit the
result is the deterministic 12-character `r`-prefixed MD5 fallback,
hashing the original-case name (or the id when the normalized name is
empty).  Third, the distinct raw names "0A" and "0a", which lower-case
identically, still receive different final names. -/
theorem resource_naming_spec :
    (∀ (ic : ImportCtx) (rt i a v m : String) (d : Option (List (String × String))),
      ic.prfx = "" →
      resourceName ic ⟨rt, i, a, v, "General Policy - All Users", m, d⟩ =
        "general_policy_all_users")
    ∧ (∀ (ic : ImportCtx) (r : Resource),
      startsWithDigit (normalizedNameOf ic r) = true ∨ normalizedNameOf ic r = "" →
      resourceName ic r = goTakeChars ("r" ++ md5Hex (strBytes
        (if normalizedNameOf ic r = "" then r.id else ic.prfx ++ rawNameOf ic r))) 12
      ∧ goLen (resourceName ic r) = 12)
    ∧ resourceName baseCtx ⟨"databricks_group", "", "", "", "0A", "", none⟩ ≠
        resourceName baseCtx ⟨"databricks_group", "", "", "", "0a", "", none⟩ := by
  refine ⟨?_, ?_, ?_⟩
  · intro ic rt i a v m d h
    simp only [resourceName, normalizedNameOf, rawNameOf, h]
    rfl
  · intro ic r h
    have hcond : (startsWithDigit (normalizedNameOf ic r) || normalizedNameOf ic r = "") = true := by
      rcases h with h | h <;> simp [h]
    constructor
    · unfold resourceName
      rw [if_pos hcond]
    · unfold resourceName
      rw [if_pos hcond]
      unfold goTakeChars goLen
      simp only [List.length_take]
      have : goLen ("r" ++ md5Hex (strBytes
          (if normalizedNameOf ic r = "" then r.id else ic.prfx ++ rawNameOf ic r))) = 33 := by
        have h32 := md5Hex_goLen (strBytes
          (if normalizedNameOf ic r = "" then r.id else ic.prfx ++ rawNameOf ic r))
        unfold goLen at h32 ⊢
        rw [String.data_append, List.length_append, h32]
        rfl
      unfold goLen at this
      omega
  · decide

theorem resource_naming_spec_witness :
    baseCtx.prfx = "" ∧
    resourceName baseCtx ⟨"", "", "", "", "General Policy - All Users", "", none⟩ =
      "general_policy_all_users" ∧
    (startsWithDigit
        (normalizedNameOf baseCtx ⟨"databricks_group", "", "", "", "0A", "", none⟩) = true ∨
      normalizedNameOf baseCtx ⟨"databricks_group", "", "", "", "0A", "", none⟩ = "") ∧
    resourceName baseCtx ⟨"databricks_group", "", "", "", "0A", "", none⟩ =
      goTakeChars ("r" ++ md5Hex (strBytes
        (if normalizedNameOf baseCtx ⟨"databricks_group", "", "", "", "0A", "", none⟩ = ""
          then (⟨"databricks_group", "", "", "", "0A", "", none⟩ : Resource).id
          else baseCtx.prfx ++
            rawNameOf baseCtx ⟨"databricks_group", "", "", "", "0A", "", none⟩))) 12 ∧
    goLen (resourceName baseCtx ⟨"databricks_group", "", "", "", "0A", "", none⟩) = 12 :=
  ⟨rfl, resource_naming_spec.1 baseCtx "" "" "" "" "" none rfl,
   Or.inl (by decide),
   (resource_naming_spec.2.1 baseCtx _ (Or.inl (by decide))).1,
   (resource_naming_spec.2.1 baseCtx _ (Or.inl (by decide))).2⟩

/-! ## Claim about the generic projection field order -/

/-- C8: `dataToHcl` visits the declared schema fields in strictly
reverse-lexicographic name order (given the distinct field names of a Go
map), the visited order is independent of the arbitrary enumeration
order of the schema map, and the emitted subsequence inherits the strict
order, so the emitted body is deterministic for a given schema and data. -/
theorem dataToHcl_field_order (sch : List (String × SchemaS))
    (h : (sch.map Prod.fst).Nodup) :
    List.Pairwise (fun a b : String => b < a) (dataToHclFieldNames sch)
    ∧ (∀ sch', sch.Perm sch' → fieldOrder sch = fieldOrder sch')
    ∧ ∀ omitFn, List.Pairwise (fun a b : String => b < a)
        (dataToHclEmittedFields sch omitFn) := by
  haveI instTot : IsTotal (String × SchemaS) (fun a b => b.1 ≤ a.1) :=
    ⟨fun a b => le_total b.1 a.1⟩
  haveI instTrans : IsTrans (String × SchemaS) (fun a b => b.1 ≤ a.1) :=
    ⟨fun _ _ _ h1 h2 => le_trans h2 h1⟩
  have hsorted : ∀ l : List (String × SchemaS),
      List.Pairwise (fun a b => b.1 ≤ a.1) (fieldOrder l) :=
    fun l => List.sorted_insertionSort _ l
  have hperm : ∀ l : List (String × SchemaS), (fieldOrder l).Perm l :=
    fun l => List.perm_insertionSort _ l
  have hstrict : ∀ l : List (String × SchemaS), (l.map Prod.fst).Nodup →
      List.Pairwise (fun a b : (String × SchemaS) => b.1 < a.1) (fieldOrder l) := by
    intro l hl
    have hnd : ((fieldOrder l).map Prod.fst).Nodup :=
      ((hperm l).map Prod.fst).nodup_iff.mpr hl
    have hne : List.Pairwise (fun a b : (String × SchemaS) => a.1 ≠ b.1) (fieldOrder l) :=
      (List.pairwise_map).mp hnd
    exact ((hsorted l).and hne).imp (fun hab => lt_of_le_of_ne hab.1 (Ne.symm hab.2))
  have hnamesStrict : List.Pairwise (fun a b : String => b < a) (dataToHclFieldNames sch) := by
    unfold dataToHclFieldNames
    exact (List.pairwise_map).mpr (hstrict sch h)
  refine ⟨hnamesStrict, ?_, ?_⟩
  · intro sch' hp
    haveI instAnti : IsAntisymm (String × SchemaS) (fun a b : (String × SchemaS) => b.1 < a.1) :=
      ⟨fun a b h1 h2 => absurd (lt_trans h1 h2) (lt_irrefl _)⟩
    have h' : (sch'.map Prod.fst).Nodup := ((hp.map Prod.fst).nodup_iff).mp h
    exact List.eq_of_perm_of_sorted
      ((hperm sch).trans (hp.trans (hperm sch').symm)) (hstrict sch h) (hstrict sch' h')
  · intro omitFn
    unfold dataToHclEmittedFields
    exact List.Pairwise.sublist (List.filter_sublist _) hnamesStrict

theorem dataToHcl_field_order_witness :
    ((([("a", ⟨SchemaKind.str, true⟩), ("c", ⟨SchemaKind.bool, false⟩),
        ("b", ⟨SchemaKind.int, false⟩)] : List (String × SchemaS)).map Prod.fst).Nodup) ∧
    List.Pairwise (fun a b : String => b < a)
      (dataToHclFieldNames [("a", ⟨SchemaKind.str, true⟩), ("c", ⟨SchemaKind.bool, false⟩),
        ("b", ⟨SchemaKind.int, false⟩)]) :=
  ⟨by decide, (dataToHcl_field_order _ (by decide)).1⟩

/-! ## Claim about the incremental merge -/

/-- C2: merging a prior file holding blocks A and B with a run that
regenerates exactly B and C yields the new B, the new C, then the prior A
appended after the new blocks — the stale B is dropped, so no identity is
duplicated.  And an incremental merge deletes the file (returns `none`)
exactly when nothing was generated and nothing pre-existed, i.e. when the
file would hold zero blocks. -/
theorem incremental_merge (a b c wA wB wBn wC icmdB icmdC : String)
    (hab : a ≠ b) (hbc : b ≠ c) (hac : a ≠ c) :
    (handleResourceWrite true [⟨a, wA⟩, ⟨b, wB⟩] [⟨b, wBn, icmdB⟩, ⟨c, wC, icmdC⟩]).1 =
      some [⟨b, wBn⟩, ⟨c, wC⟩, ⟨a, wA⟩]
    ∧ ∀ (existing : List Block) (ch : List RWData),
        ((handleResourceWrite true existing ch).1 = none ↔ ch = [] ∧ existing = []) := by
  constructor
  · have hdedup : ([b, c] : List String).dedup = [b, c] :=
      List.dedup_eq_self.mpr (by simp [hbc])
    simp [handleResourceWrite, hab, hac, hbc, hdedup]
  · intro existing ch
    simp [handleResourceWrite]
    rintro rfl
    simp
    exact List.eq_nil_iff_forall_not_mem.symm

theorem incremental_merge_witness :
    (("r_a" : String) ≠ "r_b") ∧ (("r_b" : String) ≠ "r_c") ∧ (("r_a" : String) ≠ "r_c") ∧
    (handleResourceWrite true [⟨"r_a", "A"⟩, ⟨"r_b", "Bold"⟩]
        [⟨"r_b", "Bnew", "import b"⟩, ⟨"r_c", "Cnew", "import c"⟩]).1 =
      some [⟨"r_b", "Bnew"⟩, ⟨"r_c", "Cnew"⟩, ⟨"r_a", "A"⟩] :=
  ⟨by decide, by decide, by decide,
   (incremental_merge "r_a" "r_b" "r_c" "A" "Bold" "Bnew" "Cnew" "import b" "import c"
      (by decide) (by decide) (by decide)).1⟩

/-! ## Claim about the no-resources run failure -/

/-- C5: when the run reaches listing (no earlier setup error fires) and
the Scope is empty once all listing collaborators finish, `Run` fails
with the "no resources to import" error, and the written-file list is
empty — no configuration file, import script or variables file is
written. -/
theorem run_no_resources (cfg : RunCfg)
    (h1 : cfg.services ≠ [])
    (h2 : cfg.incremental = true →
      ((if cfg.updatedSinceStr == "" then cfg.lastRunStr else cfg.updatedSinceStr) ≠ "" ∧
        cfg.updatedSinceParses = true))
    (h3 : cfg.formatSupported = true ∨ goUpper cfg.notebooksFormat = "SOURCE")
    (h4 : cfg.dirOk = true)
    (h5 : cfg.clientOk = true)
    (h6 : cfg.scopeLenAfterListing = 0) :
    run cfg = ([], some "no resources to import") := by
  unfold run
  rw [if_neg (by simpa using h1)]
  cases hinc : cfg.incremental with
  | false => 
    simp only [hinc, Bool.false_and, if_neg (by simp : ¬(false = true))]
    rcases h3 with h3 | h3
    · simp [h3, h4, h5, h6]
    · simp [h3, h4, h5, h6]
  | true =>
    obtain ⟨h2a, h2b⟩ := h2 hinc
    have hupd : ((if cfg.updatedSinceStr == "" then cfg.lastRunStr
        else cfg.updatedSinceStr) == "") = false := by
      cases hc : cfg.updatedSinceStr == "" with
      | true => simp [hc] at h2a; simp [hc, h2a]
      | false => simp [hc]
    simp only [hinc, Bool.true_and]
    rcases h3 with h3 | h3
    · simp [hupd, h2b, h3, h4, h5, h6]
      simpa using h2a
    · simp [hupd, h2b, h3, h4, h5, h6]
      simpa using h2a

def runCfgSample : RunCfg :=
  ⟨["groups"], false, "", "", true, "SOURCE", true, true, true, false, 0, [], false, true, true⟩

theorem run_no_resources_witness :
    runCfgSample.services ≠ [] ∧
    (runCfgSample.incremental = true →
      ((if runCfgSample.updatedSinceStr == "" then runCfgSample.lastRunStr
        else runCfgSample.updatedSinceStr) ≠ "" ∧
        runCfgSample.updatedSinceParses = true)) ∧
    (runCfgSample.formatSupported = true ∨ goUpper runCfgSample.notebooksFormat = "SOURCE") ∧
    runCfgSample.dirOk = true ∧ runCfgSample.clientOk = true ∧
    runCfgSample.scopeLenAfterListing = 0 ∧
    run runCfgSample = ([], some "no resources to import") :=
  ⟨by decide, by decide, Or.inl rfl, rfl, rfl, rfl,
   run_no_resources runCfgSample (by decide) (by decide) (Or.inl rfl) rfl rfl rfl⟩

/-! ## Claim about the reference edge-case policy -/

theorem referenceLoop_skip (ic : ImportCtx) (m : String) (path : List String)
    (v cv : String) (pre rest : List Reference)
    (h : ∀ d' ∈ pre, d'.path ≠ m) :
    referenceLoop ic m path v cv (pre ++ rest) = referenceLoop ic m path v cv rest := by
  induction pre with
  | nil => rfl
  | cons p ps ih =>
    have hp : p.path ≠ m := h p (by simp)
    have hstep : referenceLoop ic m path v cv (p :: (ps ++ rest)) =
        referenceLoop ic m path v cv (ps ++ rest) := by
      show (if p.path ≠ m then referenceLoop ic m path v cv (ps ++ rest)
        else if p.isFile then (ic, fileTokens v)
        else if p.isVariable then variableTokens ic ((path.headD "") ++ "_" ++ v) ""
        else
          match getTraversalTokens ic p v with
          | some toks => (ic, toks)
          | none => referenceLoop ic m path v cv (ps ++ rest)) =
        referenceLoop ic m path v cv (ps ++ rest)
      rw [if_pos hp]
    rw [List.cons_append, hstep]
    exact ih (fun d' hd' => h d' (by simp [hd']))

/-- C7: the reference edge cases.  When the first declaration matching the
normalized field path is flagged file-backed, `reference` returns the
quoted relative-path expression built from `path.module` and the value,
touching neither the context nor the State Approximation (the result is
the same for every context).  When that declaration is instead flagged as
an external variable, `reference` registers a variable named from the
field path's head and the value and returns the `var.<name>` traversal. -/
theorem reference_edge_cases (ic : ImportCtx) (i : Importable) (path : List String)
    (value ctyValue : String) (pre post : List Reference) (d : Reference)
    (hdep : i.depends = pre ++ d :: post)
    (hpre : ∀ d' ∈ pre, d'.path ≠ dependsPath path)
    (hd : d.path = dependsPath path) :
    (d.isFile = true →
      reference ic i path value ctyValue =
        (ic, [HTok.raw TokType.oQuote "\"",
              HTok.raw TokType.quotedLit ("$\x7bpath.module\x7d/" ++ value),
              HTok.raw TokType.cQuote "\""]))
    ∧ (d.isFile = false → d.isVariable = true →
      reference ic i path value ctyValue =
        ({ ic with vars := setAssoc ic.vars ((path.headD "") ++ "_" ++ value) "" },
         [HTok.trav ["var", (path.headD "") ++ "_" ++ value]])) := by
  have hstep : reference ic i path value ctyValue =
      referenceLoop ic (dependsPath path) path value ctyValue (d :: post) := by
    unfold reference
    rw [hdep]
    exact referenceLoop_skip ic (dependsPath path) path value ctyValue pre (d :: post) hpre
  constructor
  · intro hfile
    rw [hstep]
    unfold referenceLoop
    rw [if_neg (by simp [hd]), if_pos hfile]
    rfl
  · intro hfile hvar
    rw [hstep]
    unfold referenceLoop
    rw [if_neg (by simp [hd]), if_neg (by simp [hfile]), if_pos hvar]
    rfl

def fileDep : Reference := ⟨"", "libraries.jar", "", MatchType.dflt, none, true, false⟩

def varDep : Reference := ⟨"", "libraries.jar", "", MatchType.dflt, none, false, true⟩

theorem reference_edge_cases_witness :
    (fileDep.path = dependsPath ["libraries", "0", "jar"] ∧ fileDep.isFile = true ∧
      reference baseCtx ⟨"svc", false, none, [fileDep]⟩ ["libraries", "0", "jar"]
          "x.jar" "x.jar" =
        (baseCtx, [HTok.raw TokType.oQuote "\"",
                   HTok.raw TokType.quotedLit ("$\x7bpath.module\x7d/" ++ "x.jar"),
                   HTok.raw TokType.cQuote "\""]))
    ∧ (varDep.path = dependsPath ["libraries", "0", "jar"] ∧ varDep.isVariable = true ∧
      reference baseCtx ⟨"svc", false, none, [varDep]⟩ ["libraries", "0", "jar"] "pw" "pw" =
        ({ baseCtx with
            vars := setAssoc baseCtx.vars (("libraries" : String) ++ "_" ++ "pw") "" },
         [HTok.trav ["var", ("libraries" : String) ++ "_" ++ "pw"]])) :=
  ⟨⟨by decide, rfl,
    (reference_edge_cases baseCtx ⟨"svc", false, none, [fileDep]⟩ ["libraries", "0", "jar"]
      "x.jar" "x.jar" [] [] fileDep rfl (by simp) (by decide)).1 rfl⟩,
   ⟨by decide, rfl,
    (reference_edge_cases baseCtx ⟨"svc", false, none, [varDep]⟩ ["libraries", "0", "jar"]
      "pw" "pw" [] [] varDep rfl (by simp) (by decide)).2 rfl rfl⟩⟩

/-! ## Claim about prefix reference resolution -/

theorem scanInstances_pfx_sound (rv mv attr sv : String)
    (l : List InstanceApproximation)
    (h : scanInstances MatchType.pfx rv mv attr l = some sv) :
    (∃ i ∈ l, lookupAssoc i.attributes attr = some sv) ∧ goStartsWith rv sv = true := by
  induction l with
  | nil => simp [scanInstances] at h
  | cons i rest ih =>
    unfold scanInstances at h
    cases hl : lookupAssoc i.attributes attr with
    | none =>
      rw [hl] at h
      obtain ⟨⟨j, hj, hja⟩, hp⟩ := ih h
      exact ⟨⟨j, List.mem_cons_of_mem _ hj, hja⟩, hp⟩
    | some s =>
      rw [hl] at h
      simp only at h
      cases hm : goStartsWith rv s with
      | true =>
        rw [hm] at h
        simp at h
        subst h
        exact ⟨⟨i, List.mem_cons_self _ _, hl⟩, hm⟩
      | false =>
        rw [hm] at h
        simp only [if_neg (by simp : ¬(false = true))] at h
        obtain ⟨⟨j, hj, hja⟩, hp⟩ := ih h
        exact ⟨⟨j, List.mem_cons_of_mem _ hj, hja⟩, hp⟩

theorem scanResources_sound (mt : MatchType) (rv mv attr pick sv : String)
    (trav : List String) (l : List ResourceApproximation)
    (h : scanResources mt rv mv attr pick l = (sv, some trav)) :
    ∃ sr ∈ l, scanInstances mt rv mv attr sr.instances = some sv ∧
      trav = genTraversalTokens sr pick := by
  induction l with
  | nil => simp [scanResources] at h
  | cons sr rest ih =>
    unfold scanResources at h
    cases hs : scanInstances mt rv mv attr sr.instances with
    | none =>
      rw [hs] at h
      obtain ⟨sr', hm, hsc, ht⟩ := ih h
      exact ⟨sr', List.mem_cons_of_mem _ hm, hsc, ht⟩
    | some sv' =>
      rw [hs] at h
      simp only [Prod.mk.injEq] at h
      obtain ⟨rfl, ht⟩ := h
      exact ⟨sr, List.mem_cons_self _ _, hs, (Option.some_inj.mp ht).symm⟩

theorem goStartsWith_append_drop (v c : String) (h : goStartsWith v c = true) :
    c ++ goDropChars v (goLen c) = v := by
  unfold goStartsWith at h
  have hpre : c.data <+: v.data := List.isPrefixOf_iff_prefix.mp h
  obtain ⟨t, ht⟩ := hpre
  unfold goDropChars goLen
  cases v with
  | mk vd =>
    cases c with
    | mk cd =>
      change cd ++ t = vd at ht
      show String.mk (cd ++ vd.drop cd.length) = String.mk vd
      rw [← ht, List.drop_left]

/-- C3: prefix reference resolution is a round-trip.  A prefix-policy
resolution that succeeds found its matched portion `c` as the attribute
value of some State Approximation instance of the target kind by linear
scan — for any content of the direct index — the queried value starts
with `c`, the composed hybrid expression is the interpolated traversal
followed by the literal suffix of the value with the first `len c`
characters removed, and the matched portion concatenated with that
suffix reproduces the queried value exactly. -/
theorem prefix_reference_roundtrip (ic : ImportCtx) (ref : Reference)
    (value c : String) (trav : List String)
    (hmt : ref.matchType = MatchType.pfx)
    (hfind : find ic ⟨ref.resourceType, "", ref.matchAttribute, value, "", "", none⟩
        ref.matchAttribute ref = (c, some trav)) :
    (∃ sr ∈ stateResources ic.state ref.resourceType, ∃ i ∈ sr.instances,
        lookupAssoc i.attributes ref.matchAttribute = some c)
    ∧ goStartsWith value c = true
    ∧ c ++ goDropChars value (goLen c) = value
    ∧ getTraversalTokens ic ref value =
        some [HTok.raw TokType.oQuote "\"$\x7b", HTok.trav trav,
              HTok.raw TokType.cQuote "\x7d",
              HTok.raw TokType.quotedLit
                (maybeAddQuoteCharacter (goDropChars value (goLen c))),
              HTok.raw TokType.cQuote "\""]
    ∧ (∀ idx, find { ic with state := { ic.state with directIndex := idx } }
          ⟨ref.resourceType, "", ref.matchAttribute, value, "", "", none⟩
          ref.matchAttribute ref = (c, some trav)) := by
  have hscan : scanResources MatchType.pfx value "" ref.matchAttribute ref.matchAttribute
      (stateResources ic.state ref.resourceType) = (c, some trav) := by
    simpa [find, hmt] using hfind
  obtain ⟨sr, hsr, hsc, htrav⟩ :=
    scanResources_sound MatchType.pfx value "" ref.matchAttribute ref.matchAttribute
      c trav _ hscan
  obtain ⟨⟨i, hi, hia⟩, hp⟩ :=
    scanInstances_pfx_sound value "" ref.matchAttribute c sr.instances hsc
  refine ⟨⟨sr, hsr, i, hi, hia⟩, hp, goStartsWith_append_drop value c hp, ?_, ?_⟩
  · simp only [getTraversalTokens, hfind, hmt]
  · intro idx
    have : stateResources { ic.state with directIndex := idx } ref.resourceType =
        stateResources ic.state ref.resourceType := rfl
    simp [find, hmt, this]
    simpa [find, hmt] using hfind

def ref3 : Reference :=
  ⟨"databricks_instance_pool", "", "instance_pool_name", MatchType.pfx, none, false, false⟩

def ctx3 : ImportCtx :=
  { baseCtx with state :=
      ⟨[⟨"managed", "", "databricks_instance_pool", "pool_a",
         [⟨[("instance_pool_name", "foo")]⟩]⟩], []⟩ }

theorem prefix_reference_roundtrip_witness :
    ref3.matchType = MatchType.pfx ∧
    find ctx3 ⟨ref3.resourceType, "", ref3.matchAttribute, "foo-suffix", "", "", none⟩
        ref3.matchAttribute ref3 =
      ("foo", some ["databricks_instance_pool", "pool_a", "instance_pool_name"]) ∧
    goStartsWith "foo-suffix" "foo" = true ∧
    ("foo" : String) ++ goDropChars "foo-suffix" (goLen "foo") = "foo-suffix" ∧
    getTraversalTokens ctx3 ref3 "foo-suffix" =
      some [HTok.raw TokType.oQuote "\"$\x7b",
            HTok.trav ["databricks_instance_pool", "pool_a", "instance_pool_name"],
            HTok.raw TokType.cQuote "\x7d",
            HTok.raw TokType.quotedLit
              (maybeAddQuoteCharacter (goDropChars "foo-suffix" (goLen "foo"))),
            HTok.raw TokType.cQuote "\""] :=
  ⟨rfl, by decide,
   (prefix_reference_roundtrip ctx3 ref3 "foo-suffix" "foo"
      ["databricks_instance_pool", "pool_a", "instance_pool_name"] rfl (by decide)).2.1,
   (prefix_reference_roundtrip ctx3 ref3 "foo-suffix" "foo"
      ["databricks_instance_pool", "pool_a", "instance_pool_name"] rfl (by decide)).2.2.1,
   (prefix_reference_roundtrip ctx3 ref3 "foo-suffix" "foo"
      ["databricks_instance_pool", "pool_a", "instance_pool_name"] rfl (by decide)).2.2.2.1⟩

/-! ## Claim about regexp reference resolution -/

theorem take_slice_drop_str (v : String) (gs ge : Nat) (h : gs ≤ ge) :
    goTakeChars v gs ++ (goSlice v gs ge ++ goDropChars v ge) = v := by
  unfold goTakeChars goSlice goDropChars
  cases v with
  | mk vd =>
    show String.mk (vd.take gs ++ ((vd.take ge).drop gs ++ vd.drop ge)) = String.mk vd
    have hge : gs + (ge - gs) = ge := Nat.add_sub_cancel' h
    have h1 : (vd.take ge).drop gs = (vd.drop gs).take (ge - gs) := by
      rw [List.take_drop, hge]
    have h2 : vd.drop ge = (vd.drop gs).drop (ge - gs) := by
      rw [List.drop_drop, hge]
    rw [h1, h2, List.take_append_drop, List.take_append_drop]

/-- C6: regexp reference resolution.  With the regexp policy, a missing
pattern or a match with fewer than one capture makes the resolver return
no match; and when the single capture's direct index lookup succeeds, the
composed expression is the literal bytes of the value before the capture,
the interpolated traversal, and the literal bytes after the capture, so
the pieces around the reference reproduce the raw value exactly. -/
theorem regexp_reference_resolution (ic : ImportCtx) (ref : Reference)
    (value : String) (hmt : ref.matchType = MatchType.rgx) :
    (ref.pattern = none →
      find ic ⟨ref.resourceType, "", ref.matchAttribute, value, "", "", none⟩
        ref.matchAttribute ref = ("", none))
    ∧ (∀ re, ref.pattern = some re → re.findIdx value = none →
      find ic ⟨ref.resourceType, "", ref.matchAttribute, value, "", "", none⟩
        ref.matchAttribute ref = ("", none))
    ∧ (∀ re p, ref.pattern = some re → re.findIdx value = some [p] →
      find ic ⟨ref.resourceType, "", ref.matchAttribute, value, "", "", none⟩
        ref.matchAttribute ref = ("", none))
    ∧ (∀ re ms me gs ge sr, ref.pattern = some re →
      re.findIdx value = some [(ms, me), (gs, ge)] →
      gs ≤ ge →
      stateGet ic.state ref.resourceType ref.matchAttribute (goSlice value gs ge) =
        some sr →
      getTraversalTokens ic ref value =
        some [HTok.raw TokType.oQuote "\"",
              HTok.raw TokType.quotedLit (maybeAddQuoteCharacter (goTakeChars value gs)),
              HTok.raw TokType.oQuote "$\x7b",
              HTok.trav (genTraversalTokens sr ref.matchAttribute),
              HTok.raw TokType.cQuote "\x7d",
              HTok.raw TokType.quotedLit (maybeAddQuoteCharacter (goDropChars value ge)),
              HTok.raw TokType.cQuote "\""]
      ∧ goTakeChars value gs ++ (goSlice value gs ge ++ goDropChars value ge) = value) := by
  refine ⟨?_, ?_, ?_, ?_⟩
  · intro hpat
    simp [find, hmt, hpat]
  · intro re hpat hidx
    simp [find, hmt, hpat, GoRegexp.findSubmatch, hidx]
  · intro re p hpat hidx
    simp [find, hmt, hpat, GoRegexp.findSubmatch, hidx]
  · intro re ms me gs ge sr hpat hidx hle hget
    have hfind : find ic ⟨ref.resourceType, "", ref.matchAttribute, value, "", "", none⟩
        ref.matchAttribute ref =
        (goSlice value gs ge, some (genTraversalTokens sr ref.matchAttribute)) := by
      simp [find, hmt, hpat, GoRegexp.findSubmatch, hidx, hget]
    refine ⟨?_, take_slice_drop_str value gs ge hle⟩
    simp only [getTraversalTokens, hfind, hmt, hpat, hidx]

def re6 : GoRegexp := ⟨fun v => if v = "pre-CAP-post" then some [(0, 12), (4, 7)] else none⟩

def ref6 : Reference :=
  ⟨"databricks_cluster", "", "cluster_name", MatchType.rgx, some re6, false, false⟩

def raC : ResourceApproximation :=
  ⟨"managed", "", "databricks_cluster", "c1", [⟨[("cluster_name", "CAP")]⟩]⟩

def ctx6 : ImportCtx :=
  { baseCtx with state := ⟨[raC], [(("databricks_cluster", "cluster_name", "CAP"), raC)]⟩ }

theorem regexp_reference_resolution_witness :
    ref6.matchType = MatchType.rgx ∧
    ref6.pattern = some re6 ∧
    re6.findIdx "pre-CAP-post" = some [(0, 12), (4, 7)] ∧
    (4 : Nat) ≤ 7 ∧
    stateGet ctx6.state ref6.resourceType ref6.matchAttribute
        (goSlice "pre-CAP-post" 4 7) = some raC ∧
    (getTraversalTokens ctx6 ref6 "pre-CAP-post" =
        some [HTok.raw TokType.oQuote "\"",
              HTok.raw TokType.quotedLit
                (maybeAddQuoteCharacter (goTakeChars "pre-CAP-post" 4)),
              HTok.raw TokType.oQuote "$\x7b",
              HTok.trav (genTraversalTokens raC ref6.matchAttribute),
              HTok.raw TokType.cQuote "\x7d",
              HTok.raw TokType.quotedLit
                (maybeAddQuoteCharacter (goDropChars "pre-CAP-post" 7)),
              HTok.raw TokType.cQuote "\""] ∧
      goTakeChars "pre-CAP-post" 4 ++
        (goSlice "pre-CAP-post" 4 7 ++ goDropChars "pre-CAP-post" 7) = "pre-CAP-post") :=
  ⟨rfl, rfl, by decide, by decide, by decide,
   (regexp_reference_resolution ctx6 ref6 "pre-CAP-post" rfl).2.2.2 re6 0 12 4 7 raC
     rfl (by decide) (by decide) (by decide)⟩
